import Mathlib

/-!
Verification of the image/section/record discovery subsystem of swift-testing.

This file shallowly embeds the C++ sources under `Sources/_TestingInternals`,
`Sources/TestingInternals` and `Sources/_ImageryInternals` and proves or refutes
the frozen claims about them.

Conventions of the embedding:
* Addresses and unsigned machine words are `Nat`; `uintptr_t` arithmetic is
  taken modulo 2^64 (written as the literal 18446744073709551616).
* A 32-bit field such as `int32_t _offset` is carried as its bit pattern, a
  `Nat` below 2^32; sign extension is made explicit.
* A C pointer value is a `Nat`, with 0 playing the role of `nullptr`, exactly
  as the C code tests pointers against null.
* Memory is a typed environment (`Mem` and the ELF/maps-file structures):
  each kind of load the code performs is one field of the environment.
-/

/-- Sign extension of a 32-bit bit pattern to a signed integer, the effect of
`static_cast<intptr_t>(maskedOffset)` on an `int32_t` in the source
(2147483648 = 2^31, 4294967296 = 2^32). -/
def signExt32 (n : Nat) : Int :=
  if n < 2147483648 then (n : Int) else (n : Int) - 4294967296

/-- The two's-complement 32-bit bit pattern of a signed displacement `d`
(4294967296 = 2^32). -/
def bits32 (d : Int) : Nat :=
  (d % 4294967296).toNat

/-- `SWTRelativePointer<T, maskValue>::get()` from `Discovery.cpp`:
mask the raw 32-bit offset with `~maskValue` (modelled as XOR against the
32-bit all-ones pattern 4294967295), return null (0) when the masked offset is
zero, otherwise add the sign-extended offset to the address of the pointer
itself with wraparound-safe unsigned 64-bit arithmetic.  The pointer-auth
strip/re-sign step is address-preserving and so is the identity here. -/
def relPtrGet (mask selfAddr raw : Nat) : Nat :=
  let masked := raw &&& (4294967295 ^^^ mask)
  if masked = 0 then 0
  else (((selfAddr : Int) + signExt32 masked) % 18446744073709551616).toNat

/-- `SWTRelativePointerIntPair<T, I, maskValue>::getInt()`: the reserved low
bits of the raw offset. -/
def relPtrGetInt (mask raw : Nat) : Nat :=
  raw &&& mask

/-- Masking a 32-bit value with the complement of a mask none of whose set
bits occur in the value leaves the value unchanged. -/
theorem land_comp_eq_self {a m : Nat} (ha : a < 4294967296) (h : a &&& m = 0) :
    a &&& (4294967295 ^^^ m) = a := by
  apply Nat.eq_of_testBit_eq
  intro i
  rw [Nat.testBit_and, Nat.testBit_xor]
  by_cases hb : a.testBit i
  · have hi : i < 32 := by
      by_contra hge
      have h32 : (4294967296 : Nat) ≤ 2 ^ i := by
        calc (4294967296 : Nat) = 2 ^ 32 := by norm_num
        _ ≤ 2 ^ i := Nat.pow_le_pow_right (by norm_num) (by omega)
      have : a.testBit i = false := Nat.testBit_lt_two_pow (by omega)
      simp [this] at hb
    have hm : m.testBit i = false := by
      have hz := congrArg (fun x => Nat.testBit x i) h
      simpa [Nat.testBit_and, hb] using hz
    have hones : (4294967295 : Nat).testBit i = true := by
      have h1 : (4294967295 : Nat) = 2 ^ 32 - 1 := by norm_num
      rw [h1, Nat.testBit_two_pow_sub_one]
      simpa using hi
    simp [hb, hm, hones]
  · simp only [Bool.not_eq_true] at hb
    simp [hb]

/-- C4: round trip of the self-relative pointer resolver.  First conjunct: for
every address `A` below 2^64 and every nonzero signed 32-bit displacement `d`
whose tag-mask bits are clear, resolving the pointer stored at address
`A - d` (computed with wraparound) with raw offset `d` yields exactly `A`.
Second conjunct: a raw offset whose masked value is zero resolves to null
(absent) at every storage address. -/
theorem C4_relative_pointer_roundtrip :
    (∀ (mask A : Nat) (d : Int), A < 18446744073709551616 →
      d ≠ 0 → -2147483648 ≤ d → d < 2147483648 → bits32 d &&& mask = 0 →
      relPtrGet mask ((((A : Int) - d) % 18446744073709551616).toNat) (bits32 d) = A)
    ∧ (∀ mask selfAddr raw : Nat, raw &&& (4294967295 ^^^ mask) = 0 →
      relPtrGet mask selfAddr raw = 0) := by
  constructor
  · intro mask A d hA hd hlo hhi hclear
    have hblt : bits32 d < 4294967296 := by
      unfold bits32
      have h1 := Int.emod_nonneg d (by norm_num : (4294967296 : Int) ≠ 0)
      have h2 := Int.emod_lt_of_pos d (by norm_num : (0 : Int) < 4294967296)
      omega
    have hmasked : bits32 d &&& (4294967295 ^^^ mask) = bits32 d :=
      land_comp_eq_self hblt hclear
    have hbits : (bits32 d : Int) = d % 4294967296 := by
      unfold bits32
      have h1 := Int.emod_nonneg d (by norm_num : (4294967296 : Int) ≠ 0)
      omega
    have hbne : bits32 d ≠ 0 := by
      intro h0
      rw [h0] at hbits
      omega
    have hsign : signExt32 (bits32 d) = d := by
      unfold signExt32
      split <;> omega
    unfold relPtrGet
    simp only [hmasked, if_neg hbne, hsign]
    have hnn : (0 : Int) ≤ ((A : Int) - d) % 18446744073709551616 :=
      Int.emod_nonneg _ (by norm_num)
    have hlt : ((A : Int) - d) % 18446744073709551616 < 18446744073709551616 :=
      Int.emod_lt_of_pos _ (by norm_num)
    omega
  · intro mask selfAddr raw h
    unfold relPtrGet
    simp [h]

/-- C4 witness: the round trip at mask 3, address 100, displacement 16, and
absence at a zero raw offset. -/
theorem C4_relative_pointer_roundtrip_witness :
    relPtrGet 3 ((((100 : Nat) : Int) - 16) % 18446744073709551616).toNat (bits32 16) = 100
    ∧ relPtrGet 3 84 0 = 0 :=
  ⟨C4_relative_pointer_roundtrip.1 3 100 16 (by norm_num) (by norm_num) (by norm_num)
      (by norm_num) (by decide),
  C4_relative_pointer_roundtrip.2 3 84 0 (by decide)⟩

/-- The layout-relevant fields of `SWTTypeContextDescriptor` (`Discovery.cpp`):
`_flags` at offset 0, `_parent` at offset 4, `_name` at offset 8 and
`_metadataAccessFunction` at offset 12; the two pointer fields are carried as
the 32-bit bit patterns of their `_offset` members. -/
structure SWTTypeContextDescriptor where
  flags : Nat
  parentRaw : Nat
  nameRaw : Nat
  accessRaw : Nat

/-- The memory/runtime environment the discovery code reads through.  Each
field models one kind of load the C++ performs: `record` is the 32-bit
`_offset` of the `SWTTypeMetadataRecord` at an address, `descAt` the
descriptor struct at an address, `ptrAt` a pointer-sized load (used by the
indirect record encoding, 0 meaning null), `strAt` the NUL-terminated string
at an address, and `accessValue` the `.value` member of the response of the
metadata access function at an address (0 meaning null metadata). -/
structure Mem where
  record : Nat → Nat
  descAt : Nat → SWTTypeContextDescriptor
  ptrAt : Nat → Nat
  strAt : Nat → List Char
  accessValue : Nat → Nat

/-- `SWTTypeMetadataRecord::getContextDescriptor()`: dispatch on the low two
bits of the record's raw offset (`SWTRelativePointerIntPair` with mask 3).
Tag 0 resolves the relative pointer directly; tag 1 resolves it and, when the
result is non-null, dereferences once more (the pointer-authentication
stripping of the inner pointer is address-preserving); any other tag yields
null. -/
def getContextDescriptor (mem : Mem) (recAddr : Nat) : Nat :=
  let raw := mem.record recAddr
  match relPtrGetInt 3 raw with
  | 0 => relPtrGet 3 recAddr raw
  | 1 =>
    let p := relPtrGet 3 recAddr raw
    if p = 0 then 0 else mem.ptrAt p
  | _ => 0

/-- `SWTTypeContextDescriptor::isGeneric()`: bit 0x80 of the flags word. -/
def descIsGeneric (mem : Mem) (a : Nat) : Bool :=
  (mem.descAt a).flags &&& 128 != 0

/-- `SWTTypeContextDescriptor::getName()`: resolve the `_name` relative
pointer, which lives at offset 8 of the descriptor. -/
def descGetName (mem : Mem) (a : Nat) : Nat :=
  relPtrGet 0 (a + 8) (mem.descAt a).nameRaw

/-- `SWTTypeContextDescriptor::getMetadata()`: resolve the
`_metadataAccessFunction` relative pointer at offset 12 and, when non-null,
call it and take the `.value` of the response; otherwise null. -/
def descGetMetadata (mem : Mem) (a : Nat) : Nat :=
  let fp := relPtrGet 0 (a + 12) (mem.descAt a).accessRaw
  if fp = 0 then 0 else mem.accessValue fp

/-- C `strstr(hay, needle) != nullptr`: whether `needle` occurs contiguously
in `hay` (an empty needle always matches). -/
def strstrFound : List Char → List Char → Bool
  | [], needle => needle.isEmpty
  | hay@(_ :: rest), needle => needle.isPrefixOf hay || strstrFound rest needle

/-- The per-record body of `swt_enumerateTypesWithNamesContaining` (common to
both `Discovery.cpp` variants): fetch the context descriptor (skip when null),
skip generic descriptors, skip when the name is null or does not contain the
requested substring, then realize the metadata and, when it is non-null,
report it; `some md` means the visitor is invoked with metadata `md`. -/
def processRecord (mem : Mem) (nameSub : List Char) (recAddr : Nat) : Option Nat :=
  let cd := getContextDescriptor mem recAddr
  if cd = 0 then none
  else if descIsGeneric mem cd then none
  else
    let nm := descGetName mem cd
    if nm = 0 then none
    else if strstrFound (mem.strAt nm) nameSub = false then none
    else
      let md := descGetMetadata mem cd
      if md = 0 then none else some md

/-- `SWTSectionBounds` from `_TestingInternals/Discovery.cpp`: image base,
section start and section byte size. -/
structure SWTSectionBounds where
  imageAddress : Nat
  start : Nat
  size : Nat
deriving DecidableEq

/-- Result of walking one section: the record addresses examined, the visitor
invocations performed (image base paired with realized metadata), and the
final value of the stop flag. -/
structure WalkResult where
  examined : List Nat
  visits : List (Nat × Nat)
  stop : Bool

/-- The per-section loop of `swt_enumerateTypesWithNamesContaining` in
`_TestingInternals/Discovery.cpp`: a range-based `for` over
`SWTSectionBounds`, whose iterator starts at `start`, advances by the record
stride 4 and stops only when it compares equal to `start + size`; the stop
flag is passed to the visitor but never consulted inside this loop.  The
source loop has no other exit, so iteration is bounded here by explicit
`fuel`; a read present for some fuel is a read the source performs. -/
def walkSectionA (mem : Mem) (nameSub : List Char) (visitor : Nat → Nat → Bool → Bool)
    (imageAddr endAddr : Nat) : Nat → Nat → Bool → WalkResult
  | 0, _, stop => ⟨[], [], stop⟩
  | fuel + 1, cur, stop =>
    if cur = endAddr then ⟨[], [], stop⟩
    else
      match processRecord mem nameSub cur with
      | none =>
        let r := walkSectionA mem nameSub visitor imageAddr endAddr fuel (cur + 4) stop
        ⟨cur :: r.examined, r.visits, r.stop⟩
      | some md =>
        let stop2 := visitor imageAddr md stop
        let r := walkSectionA mem nameSub visitor imageAddr endAddr fuel (cur + 4) stop2
        ⟨cur :: r.examined, (imageAddr, md) :: r.visits, r.stop⟩

/-- `swt_enumerateTypesWithNamesContaining` in
`_TestingInternals/Discovery.cpp` together with the outer loop of
`enumerateTypeMetadataSections` (Apple/Windows shape): sections are visited in
order with a shared stop flag that is checked after each section; each aligned
section needs `size / 4` iterations, so `size / 4 + 1` fuel is exact for it. -/
def enumerateTypesA (mem : Mem) (nameSub : List Char) (visitor : Nat → Nat → Bool → Bool) :
    List SWTSectionBounds → List (Nat × Nat)
  | [] => []
  | sb :: rest =>
    let r := walkSectionA mem nameSub visitor sb.imageAddress (sb.start + sb.size)
      (sb.size / 4 + 1) sb.start false
    if r.stop then r.visits else r.visits ++ enumerateTypesA mem nameSub visitor rest

/-- Result of the `TestingInternals/Discovery.cpp` per-section loop: examined
record addresses, the metadata values passed to the visitor (that variant's
visitor receives no image address), and the final stop flag. -/
structure BWalkResult where
  examined : List Nat
  visits : List Nat
  stop : Bool

/-- The per-section loop of `swt_enumerateTypesWithNamesContaining` in
`TestingInternals/Discovery.cpp`:
`for (size_t i = 0; i < recordCount && !stop; i++)` over `records[i]` at
`start + 4*i`, with `recordCount = size / 4` supplied by the caller as the
countdown argument; the stop flag is consulted before each iteration. -/
def walkSectionB (mem : Mem) (nameSub : List Char) (visitor : Nat → Bool → Bool)
    (start : Nat) : Nat → Nat → Bool → BWalkResult
  | 0, _, stop => ⟨[], [], stop⟩
  | n + 1, i, stop =>
    if stop then ⟨[], [], stop⟩
    else
      let addr := start + 4 * i
      match processRecord mem nameSub addr with
      | none =>
        let r := walkSectionB mem nameSub visitor start n (i + 1) stop
        ⟨addr :: r.examined, r.visits, r.stop⟩
      | some md =>
        let stop2 := visitor md stop
        let r := walkSectionB mem nameSub visitor start n (i + 1) stop2
        ⟨addr :: r.examined, md :: r.visits, r.stop⟩

/-- The visits of the `_TestingInternals` section walk are exactly the accepted
records among the examined addresses, paired with the image base; in
particular they do not depend on the stop flag. -/
theorem walkSectionA_visits_eq (mem : Mem) (nameSub : List Char)
    (vis : Nat → Nat → Bool → Bool) (img endA : Nat) :
    ∀ (fuel cur : Nat) (stop : Bool),
      (walkSectionA mem nameSub vis img endA fuel cur stop).visits =
        (walkSectionA mem nameSub vis img endA fuel cur stop).examined.filterMap
          (fun a => (processRecord mem nameSub a).map (fun md => (img, md))) := by
  intro fuel
  induction fuel with
  | zero => intro cur stop; simp [walkSectionA]
  | succ n ih =>
    intro cur stop
    by_cases he : cur = endA
    · simp [walkSectionA, he]
    · cases h : processRecord mem nameSub cur with
      | none => simp [walkSectionA, he, h, ih]
      | some md => simp [walkSectionA, he, h, ih]

/-- Every visit carries the image base of the section being walked. -/
theorem walkSectionA_visits_imageAddr (mem : Mem) (nameSub : List Char)
    (vis : Nat → Nat → Bool → Bool) (img endA fuel cur : Nat) (stop : Bool) :
    ∀ v ∈ (walkSectionA mem nameSub vis img endA fuel cur stop).visits, v.1 = img := by
  intro v hv
  rw [walkSectionA_visits_eq] at hv
  rcases List.mem_filterMap.mp hv with ⟨a, _, hf⟩
  cases h : processRecord mem nameSub a with
  | none => rw [h] at hf; simp at hf
  | some md => rw [h] at hf; simp at hf; rw [← hf]

/-- Every visit reported by the `_TestingInternals` top-level enumeration
arises from a visit of one of the sections in the list. -/
theorem enumerateTypesA_mem (mem : Mem) (nameSub : List Char)
    (vis : Nat → Nat → Bool → Bool) :
    ∀ (sbs : List SWTSectionBounds) (v : Nat × Nat),
      v ∈ enumerateTypesA mem nameSub vis sbs →
      ∃ sb ∈ sbs, v ∈ (walkSectionA mem nameSub vis sb.imageAddress (sb.start + sb.size)
        (sb.size / 4 + 1) sb.start false).visits := by
  intro sbs
  induction sbs with
  | nil => intro v hv; simp [enumerateTypesA] at hv
  | cons sb rest ih =>
    intro v hv
    simp only [enumerateTypesA] at hv
    by_cases hs : (walkSectionA mem nameSub vis sb.imageAddress (sb.start + sb.size)
        (sb.size / 4 + 1) sb.start false).stop
    · rw [if_pos hs] at hv
      exact ⟨sb, List.mem_cons_self sb rest, hv⟩
    · rw [if_neg hs] at hv
      rcases List.mem_append.mp hv with h1 | h2
      · exact ⟨sb, List.mem_cons_self sb rest, h1⟩
      · rcases ih v h2 with ⟨sb2, hsb2, hv2⟩
        exact ⟨sb2, List.mem_cons_of_mem sb hsb2, hv2⟩

/-- A record whose resolved descriptor is generic is never accepted. -/
theorem processRecord_none_of_generic (mem : Mem) (nameSub : List Char) (r : Nat)
    (h : descIsGeneric mem (getContextDescriptor mem r) = true) :
    processRecord mem nameSub r = none := by
  by_cases hc : getContextDescriptor mem r = 0
  · simp [processRecord, hc]
  · simp [processRecord, hc, h]

/-- An accepted record has a non-null, non-generic descriptor. -/
theorem processRecord_some_not_generic (mem : Mem) (nameSub : List Char) (r md : Nat)
    (h : processRecord mem nameSub r = some md) :
    getContextDescriptor mem r ≠ 0 ∧
      descIsGeneric mem (getContextDescriptor mem r) = false := by
  by_cases hc : getContextDescriptor mem r = 0
  · simp [processRecord, hc] at h
  · refine ⟨hc, ?_⟩
    by_cases hg : descIsGeneric mem (getContextDescriptor mem r)
    · simp [processRecord, hc, hg] at h
    · simpa using hg

/-- C7: descriptor resolution is determined by the record's tag, the raw
offset masked with 3.  Tag 0 resolves the relative pointer directly; tag 1
resolves it and dereferences once more through `ptrAt` when the outer pointer
is non-null, and yields null (no descriptor) when the outer pointer is absent;
tags 2 and 3 yield null; and a record with no descriptor is skipped by the
record walker. -/
theorem C7_tag_dispatch (mem : Mem) (r : Nat) :
    (mem.record r &&& 3 = 0 →
      getContextDescriptor mem r = relPtrGet 3 r (mem.record r))
    ∧ (mem.record r &&& 3 = 1 → relPtrGet 3 r (mem.record r) ≠ 0 →
      getContextDescriptor mem r = mem.ptrAt (relPtrGet 3 r (mem.record r)))
    ∧ (mem.record r &&& 3 = 1 → relPtrGet 3 r (mem.record r) = 0 →
      getContextDescriptor mem r = 0)
    ∧ ((mem.record r &&& 3 = 2 ∨ mem.record r &&& 3 = 3) →
      getContextDescriptor mem r = 0)
    ∧ (∀ nameSub, getContextDescriptor mem r = 0 →
      processRecord mem nameSub r = none) := by
  refine ⟨?_, ?_, ?_, ?_, ?_⟩
  · intro h; simp [getContextDescriptor, relPtrGetInt, h]
  · intro h hp; simp [getContextDescriptor, relPtrGetInt, h, hp]
  · intro h hp; simp [getContextDescriptor, relPtrGetInt, h, hp]
  · rintro (h | h) <;> simp [getContextDescriptor, relPtrGetInt, h]
  · intro nameSub h; simp [processRecord, h]

/-- A concrete memory fixture: a section at [0, 12) holding three direct
(tag-0) records at 0, 4 and 8 whose descriptors (at 100, 200 and 300) are
non-generic, named "T" (string at 400), with access functions at 500, 600 and
700 realizing metadata 1000, 1001 and 1002; additionally a tag-2 record at 12
and a tag-1 (indirect) record at 16 whose outer pointer 500 holds descriptor
address 300. -/
def fixtureMem : Mem where
  record := fun a =>
    if a = 0 then 100 else if a = 4 then 196 else if a = 8 then 292
    else if a = 12 then 6 else if a = 16 then 485 else 0
  descAt := fun a =>
    if a = 100 then ⟨0, 0, 292, 388⟩
    else if a = 200 then ⟨0, 0, 192, 388⟩
    else if a = 300 then ⟨0, 0, 92, 388⟩
    else ⟨0, 0, 0, 0⟩
  ptrAt := fun a => if a = 500 then 300 else 0
  strAt := fun a => if a = 400 then ['T'] else []
  accessValue := fun a =>
    if a = 500 then 1000 else if a = 600 then 1001 else if a = 700 then 1002 else 0

/-- A visitor that sets the stop flag on every invocation. -/
def stopVisitor : Nat → Nat → Bool → Bool := fun _ _ _ => true

/-- C1 counterexample: in the `_TestingInternals` entry point, a section with
records [A, B, C] that all match, where the visitor sets the stop flag when
invoked for A, still produces the visit sequence [A, B, C] — not [A] — because
the per-record loop never consults the stop flag. -/
theorem C1_stop_counterexample :
    enumerateTypesA fixtureMem ['T'] stopVisitor [⟨7, 0, 12⟩] =
      [(7, 1000), (7, 1001), (7, 1002)]
    ∧ enumerateTypesA fixtureMem ['T'] stopVisitor [⟨7, 0, 12⟩] ≠ [(7, 1000)] := by
  constructor
  · decide
  · decide

/-- C1 (amended): once a section walk ends with the stop flag set, no record
of any later section or image is visited (the flag propagates to the outer
per-section loop); but within the section the visit sequence is exactly the
accepted records among all examined addresses, independent of the stop flag,
so the remaining records of the stopping section are still scanned and
visited when they match. -/
theorem C1_stop_semantics (mem : Mem) (nameSub : List Char)
    (vis : Nat → Nat → Bool → Bool) (sb : SWTSectionBounds)
    (rest : List SWTSectionBounds) :
    ((walkSectionA mem nameSub vis sb.imageAddress (sb.start + sb.size)
        (sb.size / 4 + 1) sb.start false).stop = true →
      enumerateTypesA mem nameSub vis (sb :: rest) =
        (walkSectionA mem nameSub vis sb.imageAddress (sb.start + sb.size)
          (sb.size / 4 + 1) sb.start false).visits)
    ∧ ∀ (fuel cur : Nat) (stop : Bool),
        (walkSectionA mem nameSub vis sb.imageAddress (sb.start + sb.size)
          fuel cur stop).visits =
          (walkSectionA mem nameSub vis sb.imageAddress (sb.start + sb.size)
            fuel cur stop).examined.filterMap
            (fun a => (processRecord mem nameSub a).map (fun md => (sb.imageAddress, md))) := by
  constructor
  · intro h
    simp [enumerateTypesA, h]
  · intro fuel cur stop
    exact walkSectionA_visits_eq mem nameSub vis sb.imageAddress (sb.start + sb.size) fuel cur stop

/-- C1 witness: in the fixture, the first section's walk sets the stop flag,
and the enumeration over two sections returns exactly the first section's
visits — the second image is never visited. -/
theorem C1_stop_semantics_witness :
    enumerateTypesA fixtureMem ['T'] stopVisitor [⟨7, 0, 12⟩, ⟨9, 0, 12⟩] =
      (walkSectionA fixtureMem ['T'] stopVisitor 7 (0 + 12) (12 / 4 + 1) 0 false).visits :=
  (C1_stop_semantics fixtureMem ['T'] stopVisitor ⟨7, 0, 12⟩ [⟨9, 0, 12⟩]).1 (by decide)

/-- C5: a record whose descriptor has the generic flag (bit 0x80) set is never
passed to the visitor: such a record is skipped outright, and every visit the
enumeration ever performs stems from a record whose descriptor is non-null and
non-generic. -/
theorem C5_generic_exclusion :
    (∀ (mem : Mem) (nameSub : List Char) (r : Nat),
      descIsGeneric mem (getContextDescriptor mem r) = true →
      processRecord mem nameSub r = none)
    ∧ ∀ (mem : Mem) (nameSub : List Char) (vis : Nat → Nat → Bool → Bool)
        (sbs : List SWTSectionBounds) (v : Nat × Nat),
        v ∈ enumerateTypesA mem nameSub vis sbs →
        ∃ a, processRecord mem nameSub a = some v.2 ∧
          getContextDescriptor mem a ≠ 0 ∧
          descIsGeneric mem (getContextDescriptor mem a) = false := by
  constructor
  · exact processRecord_none_of_generic
  · intro mem nameSub vis sbs v hv
    rcases enumerateTypesA_mem mem nameSub vis sbs v hv with ⟨sb, _, hvw⟩
    rw [walkSectionA_visits_eq] at hvw
    rcases List.mem_filterMap.mp hvw with ⟨a, _, hf⟩
    cases h : processRecord mem nameSub a with
    | none => rw [h] at hf; simp at hf
    | some md =>
      rw [h] at hf
      simp at hf
      rcases processRecord_some_not_generic mem nameSub a md h with ⟨h1, h2⟩
      refine ⟨a, ?_, h1, h2⟩
      rw [h, ← hf]

/-- C5 witness: the fixture's first visit (7, 1000) indeed stems from an
accepted record with a non-null, non-generic descriptor. -/
theorem C5_generic_exclusion_witness :
    ∃ a, processRecord fixtureMem ['T'] a = some 1000 ∧
      getContextDescriptor fixtureMem a ≠ 0 ∧
      descIsGeneric fixtureMem (getContextDescriptor fixtureMem a) = false :=
  C5_generic_exclusion.2 fixtureMem ['T'] stopVisitor [⟨7, 0, 12⟩] (7, 1000) (by decide)

/-- C7 witness: the tag dispatch at concrete records of the fixture — a tag-0
record at 0, a tag-1 record at 16 with non-null outer pointer, and a tag-2
record at 12, which is also skipped by the walker. -/
theorem C7_tag_dispatch_witness :
    getContextDescriptor fixtureMem 0 = relPtrGet 3 0 (fixtureMem.record 0)
    ∧ getContextDescriptor fixtureMem 16 = fixtureMem.ptrAt (relPtrGet 3 16 (fixtureMem.record 16))
    ∧ getContextDescriptor fixtureMem 12 = 0
    ∧ processRecord fixtureMem ['T'] 12 = none :=
  ⟨(C7_tag_dispatch fixtureMem 0).1 (by decide),
  (C7_tag_dispatch fixtureMem 16).2.1 (by decide) (by decide),
  (C7_tag_dispatch fixtureMem 12).2.2.2.1 (by decide),
  (C7_tag_dispatch fixtureMem 12).2.2.2.2 ['T'] ((C7_tag_dispatch fixtureMem 12).2.2.2.1 (by decide))⟩

/-- For an aligned end address exactly `4 * k` past the cursor, the
`_TestingInternals` range-based record loop examines exactly `k` record
addresses, all strictly below the end address, given at least `k` fuel. -/
theorem walkSectionA_examined_aligned (mem : Mem) (nameSub : List Char)
    (vis : Nat → Nat → Bool → Bool) (img : Nat) :
    ∀ (k fuel cur endA : Nat) (stop : Bool), k ≤ fuel → endA = cur + 4 * k →
      (walkSectionA mem nameSub vis img endA fuel cur stop).examined.length = k
      ∧ ∀ a ∈ (walkSectionA mem nameSub vis img endA fuel cur stop).examined, a < endA := by
  intro k
  induction k with
  | zero =>
    intro fuel cur endA stop _ hend
    cases fuel with
    | zero => simp [walkSectionA]
    | succ n =>
      have : cur = endA := by omega
      simp [walkSectionA, this]
  | succ k ih =>
    intro fuel cur endA stop hk hend
    cases fuel with
    | zero => omega
    | succ n =>
      have hne : ¬ (cur = endA) := by omega
      have hend2 : endA = (cur + 4) + 4 * k := by omega
      cases h : processRecord mem nameSub cur with
      | none =>
        have hih := ih n (cur + 4) endA stop (by omega) hend2
        simp only [walkSectionA, if_neg hne, h]
        refine ⟨by simp [hih.1], ?_⟩
        intro a ha
        simp only [List.mem_cons] at ha
        rcases ha with rfl | ha
        · omega
        · exact hih.2 a ha
      | some md =>
        have hih := ih n (cur + 4) endA (vis img md stop) (by omega) hend2
        simp only [walkSectionA, if_neg hne, h]
        refine ⟨by simp [hih.1], ?_⟩
        intro a ha
        simp only [List.mem_cons] at ha
        rcases ha with rfl | ha
        · omega
        · exact hih.2 a ha

/-- With a visitor that never sets the stop flag, the `TestingInternals` index
loop examines exactly its record count. -/
theorem walkSectionB_examined_length (mem : Mem) (nameSub : List Char)
    (vis : Nat → Bool → Bool) (start : Nat) (hvis : ∀ md s, vis md s = false) :
    ∀ (n i : Nat),
      (walkSectionB mem nameSub vis start n i false).examined.length = n := by
  intro n
  induction n with
  | zero => intro i; simp [walkSectionB]
  | succ n ih =>
    intro i
    cases h : processRecord mem nameSub (start + 4 * i) with
    | none => simp [walkSectionB, h, ih]
    | some md => simp [walkSectionB, h, hvis, ih]

/-- Every address the `TestingInternals` index loop examines lies in the
half-open window of the remaining indices. -/
theorem walkSectionB_examined_bound (mem : Mem) (nameSub : List Char)
    (vis : Nat → Bool → Bool) (start : Nat) :
    ∀ (n i : Nat) (stop : Bool),
      ∀ a ∈ (walkSectionB mem nameSub vis start n i stop).examined,
        start + 4 * i ≤ a ∧ a < start + 4 * (i + n) := by
  intro n
  induction n with
  | zero => intro i stop a ha; simp [walkSectionB] at ha
  | succ n ih =>
    intro i stop a ha
    cases hs : stop with
    | true => rw [hs] at ha; simp [walkSectionB] at ha
    | false =>
      rw [hs] at ha
      cases h : processRecord mem nameSub (start + 4 * i) with
      | none =>
        simp only [walkSectionB, h, if_neg (by simp : ¬ (false = true)), List.mem_cons] at ha
        rcases ha with rfl | ha
        · omega
        · have := ih (i + 1) false a ha
          omega
      | some md =>
        simp only [walkSectionB, h, if_neg (by simp : ¬ (false = true)), List.mem_cons] at ha
        rcases ha with rfl | ha
        · omega
        · have := ih (i + 1) (vis md false) a ha
          omega

/-- C3 (amended): the `TestingInternals` walker computes
`recordCount = size / 4` and (with a never-stopping visitor) reads exactly
that many whole records, never at or past `start + 4 * (size / 4)`, for every
size.  The `_TestingInternals` range-based walker does the same whenever
`size` is a whole multiple of the record stride 4; when it is not, its
iterator never compares equal to `start + size` and iteration does not stop
after `size / 4` records (see the counterexample). -/
theorem C3_record_count_bound (mem : Mem) (nameSub : List Char) :
    (∀ (visB : Nat → Bool → Bool) (start size : Nat),
      (∀ md s, visB md s = false) →
      (walkSectionB mem nameSub visB start (size / 4) 0 false).examined.length = size / 4)
    ∧ (∀ (visB : Nat → Bool → Bool) (start size : Nat) (stop : Bool),
      ∀ a ∈ (walkSectionB mem nameSub visB start (size / 4) 0 stop).examined,
        a < start + 4 * (size / 4))
    ∧ (∀ (visA : Nat → Nat → Bool → Bool) (img start size fuel : Nat) (stop : Bool),
      size % 4 = 0 → size / 4 ≤ fuel →
      (walkSectionA mem nameSub visA img (start + size) fuel start stop).examined.length = size / 4
      ∧ ∀ a ∈ (walkSectionA mem nameSub visA img (start + size) fuel start stop).examined,
          a < start + size) := by
  refine ⟨?_, ?_, ?_⟩
  · intro visB start size hvis
    exact walkSectionB_examined_length mem nameSub visB start hvis (size / 4) 0
  · intro visB start size stop a ha
    have := walkSectionB_examined_bound mem nameSub visB start (size / 4) 0 stop a ha
    omega
  · intro visA img start size fuel stop hal hfuel
    exact walkSectionA_examined_aligned mem nameSub visA img (size / 4) fuel start
      (start + size) stop hfuel (by omega)

/-- C3 counterexample: for a section at start 0 with size 6 (not a multiple of
the stride 4), the `_TestingInternals` range-based walker reads the record at
address `0 + (6 / 4) * 4 = 4`, i.e. at the bound the claim says is never
reached, because its iterator does not stop after `6 / 4 = 1` records. -/
theorem C3_record_count_counterexample :
    0 + (6 / 4) * 4 = 4
    ∧ (4 : Nat) ∈ (walkSectionA fixtureMem ['T'] stopVisitor 7 (0 + 6) 2 0 false).examined := by
  constructor
  · rfl
  · decide

/-- C3 witness: the bound at concrete sizes — the `TestingInternals` walker
reads exactly 2 records for size 8, and the `_TestingInternals` walker reads
exactly 3 records for the aligned size 12. -/
theorem C3_record_count_bound_witness :
    (walkSectionB fixtureMem ['T'] (fun _ _ => false) 0 (8 / 4) 0 false).examined.length = 8 / 4
    ∧ (walkSectionA fixtureMem ['T'] stopVisitor 7 (0 + 12) 4 0 false).examined.length = 12 / 4 :=
  ⟨(C3_record_count_bound fixtureMem ['T']).1 (fun _ _ => false) 0 8 (fun _ _ => rfl),
  ((C3_record_count_bound fixtureMem ['T']).2.2 stopVisitor 7 0 12 4 false (by decide) (by decide)).1⟩

/-- `MH_DYLIB_IN_CACHE` (0x80000000): the Mach header flag marking an image
that lives in the dyld shared cache. -/
def MH_DYLIB_IN_CACHE : Nat := 2147483648

/-- What the Apple loader callback can observe about an image: the Mach header
address, the header's flags word, and the result of
`getsectiondata(mhn, SEG_TEXT, "__swift5_types", &size)` — a start pointer
(0 when the section is absent) and a size. -/
structure AppleImage where
  mhAddr : Nat
  flags : Nat
  typesStart : Nat
  typesSize : Nat

/-- The body of the `objc_addLoadImageFunc` callback registered by
`getSectionBounds()` in `_TestingInternals/Discovery.cpp`: ignore the image
when `MH_DYLIB_IN_CACHE` is set in its flags; otherwise, when
`getsectiondata` finds a non-null `__swift5_types` section of positive size,
append its bounds to the process-wide list. -/
def addLoadImageHook (reg : List SWTSectionBounds) (img : AppleImage) :
    List SWTSectionBounds :=
  if img.flags &&& MH_DYLIB_IN_CACHE ≠ 0 then reg
  else if img.typesStart ≠ 0 ∧ 0 < img.typesSize then
    reg ++ [⟨img.mhAddr, img.typesStart, img.typesSize⟩]
  else reg

/-- `getSectionBounds()` as observed after the loader has delivered the given
sequence of image-load callbacks, starting from the empty registry. -/
def getSectionBounds (imgs : List AppleImage) : List SWTSectionBounds :=
  imgs.foldl addLoadImageHook []

/-- Folding the loader callback only ever adds bounds of images that passed
both the shared-cache check and the section-presence check. -/
theorem getSectionBounds_mem_aux :
    ∀ (imgs : List AppleImage) (acc : List SWTSectionBounds) (sb : SWTSectionBounds),
      sb ∈ imgs.foldl addLoadImageHook acc →
      sb ∈ acc ∨ ∃ img ∈ imgs, sb = ⟨img.mhAddr, img.typesStart, img.typesSize⟩
        ∧ img.flags &&& MH_DYLIB_IN_CACHE = 0 ∧ img.typesStart ≠ 0 ∧ 0 < img.typesSize := by
  intro imgs
  induction imgs with
  | nil => intro acc sb h; exact Or.inl h
  | cons img rest ih =>
    intro acc sb h
    simp only [List.foldl_cons] at h
    rcases ih (addLoadImageHook acc img) sb h with hacc | ⟨img2, h2, h3⟩
    · unfold addLoadImageHook at hacc
      by_cases hc : img.flags &&& MH_DYLIB_IN_CACHE ≠ 0
      · rw [if_pos hc] at hacc
        exact Or.inl hacc
      · rw [if_neg hc] at hacc
        by_cases hs : img.typesStart ≠ 0 ∧ 0 < img.typesSize
        · rw [if_pos hs] at hacc
          rcases List.mem_append.mp hacc with h1 | h1
          · exact Or.inl h1
          · refine Or.inr ⟨img, List.mem_cons_self img rest, ?_, ?_, hs.1, hs.2⟩
            · simpa using h1
            · omega
        · rw [if_neg hs] at hacc
          exact Or.inl hacc
    · exact Or.inr ⟨img2, List.mem_cons_of_mem img h2, h3⟩

/-- C9: every section-bounds entry in the Apple process-wide registry stems
from an image whose Mach header did not have the shared-cache flag set and
which contained a non-empty `__swift5_types` section at registration time;
consequently every visit the enumeration performs over the registry reports
the base address of such an image — records of shared-cache images and of
images without that section are never visited. -/
theorem C9_registry_invariant :
    (∀ (imgs : List AppleImage) (sb : SWTSectionBounds),
      sb ∈ getSectionBounds imgs →
      ∃ img ∈ imgs, sb = ⟨img.mhAddr, img.typesStart, img.typesSize⟩
        ∧ img.flags &&& MH_DYLIB_IN_CACHE = 0 ∧ img.typesStart ≠ 0 ∧ 0 < img.typesSize)
    ∧ ∀ (mem : Mem) (nameSub : List Char) (vis : Nat → Nat → Bool → Bool)
        (imgs : List AppleImage) (v : Nat × Nat),
        v ∈ enumerateTypesA mem nameSub vis (getSectionBounds imgs) →
        ∃ img ∈ imgs, v.1 = img.mhAddr
          ∧ img.flags &&& MH_DYLIB_IN_CACHE = 0 ∧ img.typesStart ≠ 0 ∧ 0 < img.typesSize := by
  have hmem : ∀ (imgs : List AppleImage) (sb : SWTSectionBounds),
      sb ∈ getSectionBounds imgs →
      ∃ img ∈ imgs, sb = ⟨img.mhAddr, img.typesStart, img.typesSize⟩
        ∧ img.flags &&& MH_DYLIB_IN_CACHE = 0 ∧ img.typesStart ≠ 0 ∧ 0 < img.typesSize := by
    intro imgs sb h
    rcases getSectionBounds_mem_aux imgs [] sb h with h1 | h2
    · simp at h1
    · exact h2
  refine ⟨hmem, ?_⟩
  intro mem nameSub vis imgs v hv
  rcases enumerateTypesA_mem mem nameSub vis (getSectionBounds imgs) v hv with ⟨sb, hsb, hvw⟩
  have himg := walkSectionA_visits_imageAddr mem nameSub vis sb.imageAddress
    (sb.start + sb.size) (sb.size / 4 + 1) sb.start false v hvw
  rcases hmem imgs sb hsb with ⟨img, h1, h2, h3, h4, h5⟩
  exact ⟨img, h1, by rw [himg, h2], h3, h4, h5⟩

/-- C9 witness: with one shared-cache image, one image lacking the section,
and one eligible image, the registry entry ⟨7, 20, 12⟩ stems from the eligible
image, whose cache flag is clear and whose section is present. -/
theorem C9_registry_invariant_witness :
    ∃ img ∈ [AppleImage.mk 50 2147483648 60 12, AppleImage.mk 99 0 0 12,
        AppleImage.mk 7 0 20 12],
      (SWTSectionBounds.mk 7 20 12) = ⟨img.mhAddr, img.typesStart, img.typesSize⟩
        ∧ img.flags &&& MH_DYLIB_IN_CACHE = 0 ∧ img.typesStart ≠ 0 ∧ 0 < img.typesSize :=
  C9_registry_invariant.1
    [AppleImage.mk 50 2147483648 60 12, AppleImage.mk 99 0 0 12, AppleImage.mk 7 0 20 12]
    (SWTSectionBounds.mk 7 20 12) (by decide)

/-- ELF constants used by the section search. -/
def SHN_UNDEF : Nat := 0

/-- `SHN_XINDEX` (0xffff): string-table index escape value. -/
def SHN_XINDEX : Nat := 65535

/-- `SHT_STRTAB`: section type of a string table. -/
def SHT_STRTAB : Nat := 3

/-- The fields of an ELF section header the search reads. -/
structure ElfShdr where
  sh_name : Nat
  sh_type : Nat
  sh_offset : Nat
  sh_size : Nat
deriving DecidableEq

/-- The fields of an ELF file header the search reads. -/
structure ElfEhdrFields where
  e_shoff : Nat
  e_shnum : Nat
  e_shstrndx : Nat
deriving DecidableEq

/-- The content of the temporary read-only file mapping produced by `map()`:
its file header, the section header at each index (the source walks the
header table by `e_shentsize`-strided address arithmetic, modelled here by
index), and the NUL-terminated string at each file offset. -/
structure MappedElf where
  ehdr : ElfEhdrFields
  shdrAt : Nat → ElfShdr
  strAt : Nat → List Char

/-- An image as seen by `sml_findSection` in
`_ImageryInternals/Implementation+ELF.cpp`: the loaded base address, the
loaded file-header fields (read from the in-memory image before mapping), and
the outcome of the `map(image->name, &ehdrMappedSize)` call. -/
structure SMLImageModel where
  base : Nat
  loaded : ElfEhdrFields
  mapResult : Option MappedElf

/-- `SMLSection`: start address and byte size. -/
structure SMLSection where
  start : Nat
  size : Nat
deriving DecidableEq

/-- The linear scan over the mapped section-header array in
`sml_findSection`: compare each header's name, resolved through the string
table, against the requested name; on the first exact match return the
section's address as loaded (`baseLoaded + sh_offset`) and its declared size.
Arguments are the current index and the count of headers left. -/
def scanSections (m : MappedElf) (strtab : ElfShdr) (sectionName : List Char)
    (base : Nat) : Nat → Nat → Option SMLSection
  | _, 0 => none
  | i, n + 1 =>
    let sh := m.shdrAt i
    let thisName := m.strAt (strtab.sh_offset + sh.sh_name)
    if thisName = sectionName then some ⟨base + sh.sh_offset, sh.sh_size⟩
    else scanSections m strtab sectionName base (i + 1) n

/-- `sml_findSection` from `_ImageryInternals/Implementation+ELF.cpp`.  The
result is the returned `bool` paired with the `outSection` out-parameter
(`none` when the function returns without writing it).  The source returns
`false` on the malformed-header and map-failure paths, `true` with the section
on a match — and, as written at the end of the function, `true` without
writing `outSection` both when the string-table header's type is not
`SHT_STRTAB` and when the scan finds no matching name. -/
def sml_findSection (img : SMLImageModel) (sectionName : List Char) :
    Bool × Option SMLSection :=
  if img.loaded.e_shoff = 0 ∨ img.loaded.e_shstrndx = SHN_UNDEF then (false, none)
  else if img.loaded.e_shnum = 0 ∨ img.loaded.e_shstrndx = SHN_XINDEX then (false, none)
  else
    match img.mapResult with
    | none => (false, none)
    | some m =>
      let strtab := m.shdrAt m.ehdr.e_shstrndx
      if strtab.sh_type = SHT_STRTAB then
        match scanSections m strtab sectionName img.base 0 m.ehdr.e_shnum with
        | some s => (true, some s)
        | none => (true, none)
      else (true, none)

/-- A well-formed mapped ELF whose two sections are named ".text" and
".shstrtab" — neither matches the queried name "sw5". -/
def elfMappedNoMatch : MappedElf where
  ehdr := ⟨64, 2, 1⟩
  shdrAt := fun i =>
    if i = 0 then ⟨1, 1, 4096, 32⟩
    else if i = 1 then ⟨7, 3, 8192, 100⟩
    else ⟨0, 0, 0, 0⟩
  strAt := fun a =>
    if a = 8192 + 1 then ['.', 't', 'e', 'x', 't']
    else if a = 8192 + 7 then ['.', 's', 'h', 's', 't', 'r', 't', 'a', 'b']
    else []

/-- The same mapped ELF except that the header at the string-table index has
type 1 (`SHT_PROGBITS`), not `SHT_STRTAB`. -/
def elfMappedBadStrtab : MappedElf where
  ehdr := ⟨64, 2, 1⟩
  shdrAt := fun i =>
    if i = 0 then ⟨1, 1, 4096, 32⟩
    else if i = 1 then ⟨7, 1, 8192, 100⟩
    else ⟨0, 0, 0, 0⟩
  strAt := fun a =>
    if a = 8192 + 1 then ['.', 't', 'e', 'x', 't']
    else if a = 8192 + 7 then ['.', 's', 'h', 's', 't', 'r', 't', 'a', 'b']
    else []

/-- C2: evaluation of `sml_findSection` at the failing inputs.  With valid
loaded header fields and a successful mapping, a scan that finds no section
whose name equals the requested name returns `(true, none)` — it reports
success without having found or written a section — and so does the path
where the string-table header's type is not `SHT_STRTAB`; the claim (and the
function's own doc comment, "Returns: Whether or not a matching section was
found") require `false` on both paths.  The malformed-header and map-failure
paths do return `false` as claimed. -/
theorem C2_findSection_returns_true_on_miss :
    sml_findSection ⟨4096, ⟨64, 2, 1⟩, some elfMappedNoMatch⟩ ['s', 'w', '5'] = (true, none)
    ∧ sml_findSection ⟨4096, ⟨64, 2, 1⟩, some elfMappedBadStrtab⟩ ['s', 'w', '5'] = (true, none)
    ∧ sml_findSection ⟨4096, ⟨0, 2, 1⟩, some elfMappedNoMatch⟩ ['s', 'w', '5'] = (false, none)
    ∧ sml_findSection ⟨4096, ⟨64, 0, 1⟩, some elfMappedNoMatch⟩ ['s', 'w', '5'] = (false, none)
    ∧ sml_findSection ⟨4096, ⟨64, 2, 65535⟩, some elfMappedNoMatch⟩ ['s', 'w', '5'] = (false, none)
    ∧ sml_findSection ⟨4096, ⟨64, 2, 1⟩, none⟩ ['s', 'w', '5'] = (false, none)
    ∧ sml_findSection ⟨4096, ⟨64, 2, 1⟩, some elfMappedNoMatch⟩ ['.', 't', 'e', 'x', 't'] =
        (true, some ⟨4096 + 4096, 32⟩) := by
  refine ⟨?_, ?_, ?_, ?_, ?_, ?_, ?_⟩ <;> decide

/-- One successfully parsed line of `/proc/self/maps` as the TOCTOU check
reads it: the mapping's device number (the value `makedev(devMajor, devMinor)`
composed from the two parsed fields), its inode number, and its recorded
path. -/
structure MapEntry where
  dev : Nat
  ino : Nat
  path : List Char
deriving DecidableEq

/-- The fields of `struct stat` that `map()` and `isFileIDConsistent()`
consult after `fstat`. -/
structure StatInfo where
  st_dev : Nat
  st_ino : Nat
  st_size : Nat
deriving DecidableEq

/-- The loop body of `isFileIDConsistent` over the parsed maps entries: for
every entry whose recorded path equals the queried path, compare device and
inode numbers against the fstat result and fail on the first disagreement. -/
def checkMapEntries (path : List Char) (st : StatInfo) : List MapEntry → Bool
  | [] => true
  | e :: rest =>
    if e.path = path then
      if e.dev ≠ st.st_dev ∨ e.ino ≠ st.st_ino then false
      else checkMapEntries path st rest
    else checkMapEntries path st rest

/-- The `/proc/self/maps` file as the check observes it: whether `fopen`
succeeded, whether every line scanned in the expected format without an I/O
error (the source returns `false` as soon as `fscanf` reports fewer than 4
conversions or `ferror` is set, so a parse or I/O failure yields `false`
regardless of the entries), and the successfully parsed entries. -/
structure MapsFile where
  openedOK : Bool
  parseOK : Bool
  entries : List MapEntry

/-- `isFileIDConsistent` from `_ImageryInternals/Implementation+ELF.cpp`
(compiled under `SML_ELF_SECURITY_ENABLED`): `false` when the maps file cannot
be opened or parsed, otherwise the result of checking every entry whose path
equals the queried path. -/
def isFileIDConsistent (mf : MapsFile) (path : List Char) (st : StatInfo) : Bool :=
  if mf.openedOK = false then false
  else if mf.parseOK = false then false
  else checkMapEntries path st mf.entries

/-- The syscall environment of one `map()` call: whether `open` and `fstat`
succeed, the `stat` result, the maps file contents, and whether `mmap`
succeeds. -/
structure FileEnv where
  openOK : Bool
  fstatOK : Bool
  st : StatInfo
  maps : MapsFile
  mmapOK : Bool

namespace ELFImpl

/-- The `map()` function of `_ImageryInternals/Implementation+ELF.cpp`: open
read-only, `fstat`, run the TOCTOU consistency check strictly after opening,
then `mmap` the full file length; every failure returns null (`none`), success
returns the mapped size.  The descriptor is closed on every path by the
`SMLDeferred` guard, which the model elides because it does not affect the
result. -/
def map (env : FileEnv) (path : List Char) : Option Nat :=
  if env.openOK = false then none
  else if env.fstatOK = false then none
  else if isFileIDConsistent env.maps path env.st = false then none
  else if env.mmapOK = false then none
  else some env.st.st_size

end ELFImpl

/-- An entry with the queried path but a disagreeing device or inode makes the
entry check fail. -/
theorem checkMapEntries_false (path : List Char) (st : StatInfo) :
    ∀ (entries : List MapEntry) (e : MapEntry), e ∈ entries → e.path = path →
      (e.dev ≠ st.st_dev ∨ e.ino ≠ st.st_ino) →
      checkMapEntries path st entries = false := by
  intro entries
  induction entries with
  | nil => intro e h; simp at h
  | cons a rest ih =>
    intro e hmem hpath hdiff
    rcases List.mem_cons.mp hmem with rfl | hrest
    · simp only [checkMapEntries, if_pos hpath, if_pos hdiff]
    · by_cases hp : a.path = path
      · by_cases hd : a.dev ≠ st.st_dev ∨ a.ino ≠ st.st_ino
        · simp only [checkMapEntries, if_pos hp, if_pos hd]
        · simp only [checkMapEntries, if_pos hp, if_neg hd]
          exact ih e hrest hpath hdiff
      · simp only [checkMapEntries, if_neg hp]
        exact ih e hrest hpath hdiff

/-- C6: fail-closed TOCTOU defense.  Whenever some parsed mapping entry records
the queried path but a device or inode number different from the fstat result
of the just-opened file, `map()` returns null and does not map the file — on
every combination of the other syscall outcomes. -/
theorem C6_toctou_fail_closed (env : FileEnv) (path : List Char) (e : MapEntry)
    (hmem : e ∈ env.maps.entries) (hpath : e.path = path)
    (hdiff : e.dev ≠ env.st.st_dev ∨ e.ino ≠ env.st.st_ino) :
    ELFImpl.map env path = none := by
  have hfc : isFileIDConsistent env.maps path env.st = false := by
    unfold isFileIDConsistent
    by_cases h1 : env.maps.openedOK = false
    · simp [h1]
    · by_cases h2 : env.maps.parseOK = false
      · simp [h1, h2]
      · simp only [h1, h2, if_neg]
        simp [checkMapEntries_false path env.st env.maps.entries e hmem hpath hdiff]
  unfold ELFImpl.map
  by_cases h1 : env.openOK = false
  · simp [h1]
  · by_cases h2 : env.fstatOK = false
    · simp [h1, h2]
    · simp [h1, h2, hfc]

/-- C6 witness: opening path "p" records inode 5, a maps entry for "p" reports
inode 6; even though open, fstat and mmap would all succeed, `map()` fails. -/
theorem C6_toctou_fail_closed_witness :
    ELFImpl.map ⟨true, true, ⟨1, 5, 4096⟩, ⟨true, true, [⟨1, 6, ['p']⟩]⟩, true⟩ ['p'] = none :=
  C6_toctou_fail_closed ⟨true, true, ⟨1, 5, 4096⟩, ⟨true, true, [⟨1, 6, ['p']⟩]⟩, true⟩
    ['p'] ⟨1, 6, ['p']⟩ (by decide) (by decide) (by decide)

/-- The environment of one `ELF::enumerateSections` call in
`TestingInternals/Discovery.cpp`: whether `dladdr` found the loaded image, the
loaded base address, and the outcome of the `map(dlinfo.dli_fname, ...)`
call. -/
structure EnumSectionsEnv where
  dladdrOK : Bool
  baseLoaded : Nat
  mapResult : Option MappedElf

/-- The per-header loop of `ELF::enumerateSections`: for each of the `n`
remaining headers starting at index `i`, resolve the section's name through
the string table and record the body invocation
(name, `sh_type`, `baseLoaded + sh_offset`, `sh_size`). -/
def collectSections (m : MappedElf) (strtab : ElfShdr) (base : Nat) :
    Nat → Nat → List (List Char × Nat × Nat × Nat)
  | _, 0 => []
  | i, n + 1 =>
    let sh := m.shdrAt i
    let nm := m.strAt (strtab.sh_offset + sh.sh_name)
    (nm, sh.sh_type, base + sh.sh_offset, sh.sh_size) ::
      collectSections m strtab base (i + 1) n

/-- `ELF::enumerateSections` from `TestingInternals/Discovery.cpp`, returning
the list of body invocations paired with the number of `munmap` calls
performed.  The source returns early when `dladdr` fails or `map` fails
(nothing was mapped), and — without reaching the `munmap` at the end of the
function — when the string-table header's type is not `SHT_STRTAB`; only the
path that walks the headers unmaps the temporary copy. -/
def enumerateSections (env : EnumSectionsEnv) :
    List (List Char × Nat × Nat × Nat) × Nat :=
  if env.dladdrOK = false then ([], 0)
  else
    match env.mapResult with
    | none => ([], 0)
    | some m =>
      let strtab := m.shdrAt m.ehdr.e_shstrndx
      if strtab.sh_type ≠ SHT_STRTAB then ([], 0)
      else (collectSections m strtab env.baseLoaded 0 m.ehdr.e_shnum, 1)

/-- C8: evaluation of `ELF::enumerateSections` at the failing input.  When the
mapping succeeds but the string-table header's type is not `SHT_STRTAB`, the
function returns without ever calling `munmap` — the temporary mapping leaks
(0 unmaps, not exactly 1).  On the well-formed path the mapping is unmapped
exactly once, and when `map` failed there is nothing to unmap. -/
theorem C8_munmap_leak_eval :
    (enumerateSections ⟨true, 4096, some elfMappedBadStrtab⟩).2 = 0
    ∧ (some elfMappedBadStrtab).isSome = true
    ∧ (enumerateSections ⟨true, 4096, some elfMappedNoMatch⟩).2 = 1
    ∧ (enumerateSections ⟨true, 4096, none⟩).2 = 0 := by
  refine ⟨?_, ?_, ?_, ?_⟩
  · rfl
  · rfl
  · rfl
  · rfl

/-- The environment of one Windows module enumeration: whether
`EnumProcessModules` succeeds, the byte count it reports through
`byteCountNeeded`, and the module handle written at each buffer index (the
buffer holds 1024 `HMODULE`s of 8 bytes each). -/
structure WinEnv where
  enumOK : Bool
  byteCountNeeded : Nat
  hModuleAt : Nat → Nat

/-- The module-list phase shared by `enumerateTypeMetadataSections` in
`_TestingInternals/Discovery.cpp` (Windows) and `sml_enumerateImages` in
`_ImageryInternals/Implementation+COFF.cpp`: on `EnumProcessModules` failure
nothing is examined; otherwise the examined modules are the first
`min(1024, byteCountNeeded / sizeof(HMODULE))` entries of the fixed
1024-entry buffer. -/
def enumeratedModules (env : WinEnv) : List Nat :=
  if env.enumOK then (List.range (min 1024 (env.byteCountNeeded / 8))).map env.hModuleAt
  else []

/-- C10: the Windows enumeration examines at most 1024 modules; on success the
number examined is exactly the minimum of 1024 and the count reported by
`EnumProcessModules`; and when more than 1024 modules are reported, exactly
the first 1024 buffer entries are examined and the excess is silently
ignored. -/
theorem C10_module_cap (env : WinEnv) :
    (enumeratedModules env).length ≤ 1024
    ∧ (env.enumOK = true →
      (enumeratedModules env).length = min 1024 (env.byteCountNeeded / 8))
    ∧ (env.enumOK = true → 1024 ≤ env.byteCountNeeded / 8 →
      enumeratedModules env = (List.range 1024).map env.hModuleAt) := by
  refine ⟨?_, ?_, ?_⟩
  · unfold enumeratedModules
    split
    · simp
    · simp
  · intro h
    simp [enumeratedModules, h]
  · intro h hcount
    simp only [enumeratedModules, if_pos h]
    have : min 1024 (env.byteCountNeeded / 8) = 1024 := by omega
    rw [this]

/-- C10 witness: with 2000 modules reported (16000 bytes needed), exactly 1024
are examined. -/
theorem C10_module_cap_witness :
    (enumeratedModules ⟨true, 16000, fun i => i⟩).length = min 1024 (16000 / 8)
    ∧ enumeratedModules ⟨true, 16000, fun i => i⟩ = (List.range 1024).map (fun i => i) :=
  ⟨(C10_module_cap ⟨true, 16000, fun i => i⟩).2.1 rfl,
  (C10_module_cap ⟨true, 16000, fun i => i⟩).2.2 rfl (by norm_num)⟩
